import Mathlib

/-!
Verification of `scripts/crawler.go` (yggdrasil-map).

A shallow embedding of the crawler: the address codec `AddrForKey`, the
retrying RPC client `doRequest`, the per-node probe inside `doRumor`, the
concurrent crawl as a step relation over tasks, and the printer `doPrinter`.

Conventions: a Go `byte` is a `Nat` below 256 (wrap-around written with
`% 256`); a Go `map[string]interface{}` is an association list whose order is
the iteration order of `range`; a Go panic is `none` (or the `panic`
constructor of the result type).
-/

set_option maxRecDepth 100000

namespace Crawler

/-! ## Address codec (crawler.go lines 13-71) -/

/-- Size of an ed25519 public key, `ed25519.PublicKeySize`. -/
def PublicKeySize : Nat := 32

/-- Length of `type Address [16]byte`. -/
def AddressSize : Nat := 16

/-- The address prefix, `GetPrefix()` (line 19). -/
def GetPrefix : List Nat := [0x02]

/-- Go `copy(dst, src)`: overwrites the first `min (len dst) (len src)` cells of `dst`. -/
def copyInto : List Nat → List Nat → List Nat
  | [], _ => []
  | d :: ds, [] => d :: ds
  | _ :: ds, s :: ss => s :: copyInto ds ss

/-- Go `copy(dst[off:], src)` on a fixed-size array `dst`. -/
def copyAt (dst : List Nat) (off : Nat) (src : List Nat) : List Nat :=
  dst.take off ++ copyInto (dst.drop off) src

/-- The complemented key buffer of lines 38-42: `buf[idx] = ^buf[idx]` on bytes. -/
def complement (publicKey : List Nat) : List Nat :=
  publicKey.map (fun b => 255 - b)

/-- Line 50: `bit := (buf[idx/8] & (0x80 >> byte(idx%8))) >> byte(7-(idx%8))`. -/
def bitAt (buf : List Nat) (idx : Nat) : Nat :=
  ((buf.getD (idx / 8) 0) &&& (0x80 >>> (idx % 8))) >>> (7 - idx % 8)

/-- The local variables of the loop of lines 45-65. -/
structure LoopState where
  done : Bool
  ones : Nat
  bits : Nat
  nBits : Nat
  temp : List Nat

/-- Values of the locals before the loop (lines 44-48). -/
def LoopState.init : LoopState :=
  { done := false, ones := 0, bits := 0, nBits := 0, temp := [] }

/-- One iteration of the loop body (lines 51-64) on the bit read at line 50.
`ones` and `bits` are bytes: `ones++` and `bits << 1` wrap modulo 256. -/
def stepBit (st : LoopState) (bit : Nat) : LoopState :=
  if !st.done && bit != 0 then
    { st with ones := (st.ones + 1) % 256 }
  else if !st.done && bit == 0 then
    { st with done := true }
  else
    let bits := ((st.bits <<< 1) % 256) ||| bit
    let nBits := st.nBits + 1
    if nBits == 8 then
      { st with bits := bits, nBits := 0, temp := st.temp ++ [bits] }
    else
      { st with bits := bits, nBits := nBits }

/-- One iteration of `for idx := 0; idx < 8*len(buf); idx++` (lines 49-65). -/
def loopBody (buf : List Nat) (st : LoopState) (idx : Nat) : LoopState :=
  stepBit st (bitAt buf idx)

/-- The whole loop of lines 49-65. -/
def bitLoop (buf : List Nat) : LoopState :=
  (List.range (8 * buf.length)).foldl (loopBody buf) LoopState.init

/-- The function `AddrForKey` (lines 28-71); `none` is the `nil` returned for a key of the wrong length. -/
def AddrForKey (publicKey : List Nat) : Option (List Nat) :=
  if publicKey.length ≠ PublicKeySize then none
  else
    let buf := complement publicKey
    let st := bitLoop buf
    let addr := List.replicate AddressSize 0
    let addr := copyAt addr 0 GetPrefix
    let addr := addr.set GetPrefix.length st.ones
    let addr := copyAt addr (GetPrefix.length + 1) st.temp
    some addr

/-- Bit `i` (most significant bit of byte 0 first) of the complemented key. -/
def compBit (publicKey : List Nat) (i : Nat) : Nat :=
  bitAt (complement publicKey) i

/-- Number of leading one-bits of a bit sequence (the `n` of the specification). -/
def leadingOnes : List Nat → Nat
  | [] => 0
  | b :: rest => if b != 0 then leadingOnes rest + 1 else 0

/-- The 256 bits of the complemented key, in the order the loop reads them. -/
def compBits (publicKey : List Nat) : List Nat :=
  (List.range (8 * (complement publicKey).length)).map (compBit publicKey)

/-- Packing of a bit sequence into whole bytes, most significant bit first;
an incomplete last group is dropped. -/
def packBits : List Nat → List Nat
  | b0 :: b1 :: b2 :: b3 :: b4 :: b5 :: b6 :: b7 :: rest =>
      (128 * b0 + 64 * b1 + 32 * b2 + 16 * b3 + 8 * b4 + 4 * b5 + 2 * b6 + b7) :: packBits rest
  | _ => []

/-! ## Decoded JSON and Go maps -/

/-- A value as `encoding/json` decodes it into an `interface{}`: `nil`, `bool`,
a number, `string`, `[]interface{}` or `map[string]interface{}`. -/
inductive Json where
  | null : Json
  | bool (b : Bool) : Json
  | num (n : Int) : Json
  | str (s : String) : Json
  | arr (xs : List Json) : Json
  | obj (kvs : List (String × Json)) : Json

/-- A Go `map[string]interface{}`; the list order stands for the order in which
`range` visits the entries. -/
abbrev GoMap := List (String × Json)

/-- Go `v, ok := m[k]`. -/
def mapIndex (m : GoMap) (k : String) : Option Json :=
  m.lookup k

/-- Go `m[k] = v`. -/
def mapAssign : GoMap → String → Json → GoMap
  | [], k, v => [(k, v)]
  | (k0, v0) :: rest, k, v =>
      if k0 == k then (k, v) :: rest else (k0, v0) :: mapAssign rest k v

/-- Go `json.Unmarshal(bs, &res)` for `res map[string]interface{}`, on the parsed
text `reply`. An object is stored entry by entry into the map already held by
`res` (an existing map is reused and keeps its other entries); `null` sets the
map to nil; any other JSON value is a decoding error, on which line 131 panics. -/
def unmarshal (reply : Json) (res : GoMap) : Option GoMap :=
  match reply with
  | .obj kvs => some (kvs.foldl (fun m e => mapAssign m e.1 e.2) res)
  | .null => some []
  | _ => none

/-! ## RPC client (crawler.go lines 87-162) -/

/-- Retry ceiling, `MAX_RETRY` (line 87). -/
def MAX_RETRY : Nat := 3

/-- Permit count, `N_PARALLEL_REQ` (line 88). -/
def N_PARALLEL_REQ : Nat := 32

/-- The request envelope built by `getRequest` (lines 100-109). -/
structure Request where
  keepalive : Bool
  request : String
  arguments : List (String × String)

/-- The function `getRequest` (lines 100-109). -/
def getRequest (key request : String) : Request :=
  { keepalive := true, request := request, arguments := [("key", key)] }

/-- The daemon behind the socket: the parsed reply read on attempt `idx`
(counted from 0) of a request. Dial, write and read errors are outside the model. -/
abbrev Daemon := Request → Nat → Json

/-- The loop of `doRequest` (lines 117-144) from iteration `idx` with `fuel`
iterations left, `res` being the map decoded so far. Returns the final `res`
and the number of attempts (dial, write, read) made; `none` is a panic. -/
def doRequestLoop (reply : Nat → Json) : Nat → Nat → GoMap → Option (GoMap × Nat)
  | 0, idx, res => some (res, idx)
  | fuel + 1, idx, res =>
      match unmarshal (reply idx) res with
      | none => none
      | some res =>
          match mapIndex res "response" with
          | none => some (res, idx + 1)
          | some .null => doRequestLoop reply fuel (idx + 1) res
          | some (.obj m) =>
              if (mapIndex m "error").isSome then doRequestLoop reply fuel (idx + 1) res
              else some (res, idx + 1)
          | some _ => none

/-- The function `doRequest` (lines 111-146): the map returned and the number of attempts made. -/
def doRequest (daemon : Daemon) (request : Request) : Option (GoMap × Nat) :=
  doRequestLoop (daemon request) MAX_RETRY 0 []

/-- The test of lines 135-142 that makes `doRequest` retry, on a decoded map. -/
def softFailure (res : GoMap) : Bool :=
  match mapIndex res "response" with
  | some .null => true
  | some (.obj m) => (mapIndex m "error").isSome
  | _ => false

/-- Soft failure in the words of the specification: the response field is
absent, is null, or is a mapping containing an error entry. -/
def softFailureSpec (res : GoMap) : Bool :=
  match mapIndex res "response" with
  | none => true
  | some .null => true
  | some (.obj m) => (mapIndex m "error").isSome
  | _ => false

/-- One reply decoded on its own, into a fresh map. -/
def decodeReply (reply : Json) : GoMap :=
  match unmarshal reply [] with
  | some m => m
  | none => []

/-- Whether a reply carries a response field. -/
def hasResponse (reply : Json) : Bool :=
  (mapIndex (decodeReply reply) "response").isSome

/-- A reply on which `doRequest` does not panic: a JSON object whose response
field, when present, is null or a mapping. -/
def wellFormedReply (reply : Json) : Prop :=
  (∃ kvs, reply = .obj kvs) ∧
    (mapIndex (decodeReply reply) "response" = none ∨
     mapIndex (decodeReply reply) "response" = some .null ∨
     ∃ m, mapIndex (decodeReply reply) "response" = some (.obj m))

/-! ## Node probe (the body of `doRumor`, lines 182-241) -/

/-- The four requests of a probe, in call order (lines 148-162). -/
inductive Query where
  | nodeInfo : Query
  | self : Query
  | peers : Query
  | dht : Query
  deriving DecidableEq

/-- The request name each query sends (lines 149, 153, 157, 161). -/
def Query.name : Query → String
  | .nodeInfo => "getNodeInfo"
  | .self => "debug_remoteGetSelf"
  | .peers => "debug_remoteGetPeers"
  | .dht => "debug_remoteGetDHT"

/-- How the handling of one reply inside `doRumor` ends: a panic, a `return`,
or falling through to the next statement; `spawned` lists the keys on which
`doRumor` was called, in call order. -/
inductive StageEnd where
  | panic : StageEnd
  | abort (spawned : List String) : StageEnd
  | next (results : GoMap) (spawned : List String) : StageEnd

/-- The loop of lines 187-194 over the entries of the `getNodeInfo` response;
`none` is the `return` of line 190. -/
def nodeInfoEntries : List (String × Json) → GoMap → Option GoMap
  | [], results => some results
  | (addr, v) :: rest, results =>
      match v with
      | .obj vm =>
          nodeInfoEntries rest
            (mapAssign (mapAssign results "address" (.str addr)) "nodeinfo" (.obj vm))
      | _ => none

/-- Lines 183-195. -/
def stageNodeInfo (reply : GoMap) (results : GoMap) : StageEnd :=
  match mapIndex reply "response" with
  | none => .next results []
  | some .null => .abort []
  | some (.obj kvs) =>
      match nodeInfoEntries kvs results with
      | some results => .next results []
      | none => .abort []
  | some _ => .panic

/-- The loop of lines 197-205 over the entries of the `debug_remoteGetSelf`
response; `none` is the `return` of line 200. -/
def selfEntries : List (String × Json) → GoMap → Option GoMap
  | [], results => some results
  | (_, v) :: rest, results =>
      match v with
      | .obj vm =>
          match mapIndex vm "coords" with
          | some coords => selfEntries rest (mapAssign results "coords" coords)
          | none => selfEntries rest results
      | _ => none

/-- Lines 196-206; a response that is not a mapping (null included) makes the
type assertion of line 197 panic. -/
def stageSelf (reply : GoMap) (results : GoMap) : StageEnd :=
  match mapIndex reply "response" with
  | none => .next results []
  | some (.obj kvs) =>
      match selfEntries kvs results with
      | some results => .next results []
      | none => .abort []
  | some _ => .panic

/-- The loop of lines 215-217 (229-231): `doRumor(key.(string), out)` for each
element of `keys`; `none` is the panic of a failed `key.(string)`. -/
def spawnKeys : List Json → List String → Option (List String)
  | [], spawned => some spawned
  | k :: rest, spawned =>
      match k with
      | .str key => spawnKeys rest (spawned ++ [key])
      | _ => none

/-- The loop of lines 208-219 (222-233) over the entries of the
`debug_remoteGetPeers` (`debug_remoteGetDHT`) response, storing under `field`. -/
def keysEntries (field : String) : List (String × Json) → GoMap → List String → StageEnd
  | [], results, spawned => .next results spawned
  | (_, v) :: rest, results, spawned =>
      match v with
      | .obj vm =>
          match mapIndex vm "keys" with
          | some (.arr keys) =>
              match spawnKeys keys spawned with
              | some spawned => keysEntries field rest (mapAssign results field (.arr keys)) spawned
              | none => .panic
          | some _ => .panic
          | none => keysEntries field rest results spawned
      | _ => .abort spawned

/-- Lines 207-220 (`field = "peers"`) and 221-234 (`field = "dht"`). -/
def stageKeys (field : String) (reply : GoMap) (results : GoMap) (spawned : List String) :
    StageEnd :=
  match mapIndex reply "response" with
  | none => .next results spawned
  | some (.obj kvs) => keysEntries field kvs results spawned
  | some _ => .panic

/-- The handling of the reply to each query. -/
def stage (q : Query) (reply : GoMap) (results : GoMap) : StageEnd :=
  match q with
  | .nodeInfo => stageNodeInfo reply results
  | .self => stageSelf reply results
  | .peers => stageKeys "peers" reply results []
  | .dht => stageKeys "dht" reply results []

/-- How a probe (lines 182-241) ends. -/
inductive ProbeEnd where
  | panicked : ProbeEnd
  | aborted (spawned : List String) : ProbeEnd
  | empty (spawned : List String) : ProbeEnd
  | lostRace (spawned : List String) : ProbeEnd
  | emitted (key : String) (res : GoMap) (spawned : List String) : ProbeEnd

/-- Lines 235-241: `known` is what `visited.LoadOrStore(key, true)` reports,
`now` is `time.Now().Unix()`. -/
def finishProbe (key : String) (known : Bool) (now : Int) (results : GoMap)
    (spawned : List String) : ProbeEnd :=
  if results.length > 0 then
    if known then .lostRace spawned
    else .emitted key (mapAssign results "time" (.num now)) spawned
  else .empty spawned

/-- Runs the queries `qs` in order from the record `results` (lines 183-234),
then lines 235-241. -/
def runQueries (daemon : Daemon) (key : String) (known : Bool) (now : Int) :
    List Query → GoMap → List String → ProbeEnd
  | [], results, spawned => finishProbe key known now results spawned
  | q :: qs, results, spawned =>
      match doRequest daemon (getRequest key q.name) with
      | none => .panicked
      | some (reply, _) =>
          match stage q reply results with
          | .panic => .panicked
          | .abort sp => .aborted (spawned ++ sp)
          | .next results sp => runQueries daemon key known now qs results (spawned ++ sp)

/-- The probe of one key: the body of the goroutine of `doRumor` from line 182 on. -/
def probe (daemon : Daemon) (key : String) (known : Bool) (now : Int) : ProbeEnd :=
  runQueries daemon key known now [.nodeInfo, .self, .peers, .dht] [] []

/-- The keys a probe called `doRumor` on. -/
def ProbeEnd.spawned : ProbeEnd → List String
  | .panicked => []
  | .aborted sp => sp
  | .empty sp => sp
  | .lostRace sp => sp
  | .emitted _ _ sp => sp

/-- A response payload of the expected shape: a mapping whose entries are mappings. -/
def mappingOfMappings (v : Json) : Prop :=
  ∃ kvs, v = .obj kvs ∧ ∀ e ∈ kvs, ∃ vm, e.2 = .obj vm

/-! ## The crawl (`doRumor`, lines 169-243) as a transition system -/

/-- Where a `doRumor` goroutine stands: the next shared-state operation it will
perform. Each request with the handling of its reply is one step (it touches no
shared state but spawns goroutines); the deferred calls run in reverse order of
their `defer` statements. -/
inductive Pc where
  | acquire : Pc
  | claim : Pc
  | check : Pc
  | query (q : Query) (results : GoMap) : Pc
  | insert (results : GoMap) : Pc
  | send (results : GoMap) : Pc
  | unrumor : Pc
  | release : Pc
  | finish : Pc
  | done : Pc

/-- A goroutine started by `doRumor(key, out)`. -/
structure Task where
  key : String
  pc : Pc

/-- The shared state of a run: the two `sync.Map`s used as sets, the number of
permits taken from `semaphore`, the `waitgroup` counter, the records sent on the
output channel so far, the goroutines, and whether some goroutine panicked. -/
structure Crawl where
  visited : List String
  rumored : List String
  semaphore : Nat
  waitgroup : Nat
  out : List (String × GoMap)
  tasks : List Task
  crashed : Bool

/-- The state after `doRumor(key, results)` in `main` (line 274). -/
def Crawl.init (seed : String) : Crawl :=
  { visited := [], rumored := [], semaphore := 0, waitgroup := 1, out := [],
    tasks := [{ key := seed, pc := .acquire }], crashed := false }

/-- The goroutines started by the `doRumor` calls of lines 216 and 230. -/
def spawnTasks (keys : List String) : List Task :=
  keys.map (fun k => { key := k, pc := .acquire })

/-- The statement reached after the reply to `q` has been handled. -/
def nextPc (q : Query) (results : GoMap) : Pc :=
  match q with
  | .nodeInfo => .query .self results
  | .self => .query .peers results
  | .peers => .query .dht results
  | .dht => .insert results

/-- One atomic step of goroutine `i`. `daemon` answers the request of a query
step and `now` is the clock read at line 239. `none`: the goroutine does not
exist, has finished, is blocked on the semaphore, or the process has died. -/
def step (s : Crawl) (i : Nat) (daemon : Daemon) (now : Int) : Option Crawl :=
  if s.crashed then none
  else
    match s.tasks[i]? with
    | none => none
    | some t =>
        match t.pc with
        | .acquire =>
            if s.semaphore < N_PARALLEL_REQ then
              some { s with semaphore := s.semaphore + 1,
                            tasks := s.tasks.set i { t with pc := .claim } }
            else none
        | .claim =>
            if s.rumored.contains t.key then
              some { s with tasks := s.tasks.set i { t with pc := .release } }
            else
              some { s with rumored := t.key :: s.rumored,
                            tasks := s.tasks.set i { t with pc := .check } }
        | .check =>
            if s.visited.contains t.key then
              some { s with tasks := s.tasks.set i { t with pc := .unrumor } }
            else
              some { s with tasks := s.tasks.set i { t with pc := .query .nodeInfo [] } }
        | .query q results =>
            match doRequest daemon (getRequest t.key q.name) with
            | none => some { s with crashed := true }
            | some (reply, _) =>
                match stage q reply results with
                | .panic => some { s with crashed := true }
                | .abort spawned =>
                    some { s with waitgroup := s.waitgroup + spawned.length,
                                  tasks := s.tasks.set i { t with pc := .unrumor }
                                    ++ spawnTasks spawned }
                | .next results spawned =>
                    some { s with waitgroup := s.waitgroup + spawned.length,
                                  tasks := s.tasks.set i { t with pc := nextPc q results }
                                    ++ spawnTasks spawned }
        | .insert results =>
            if results.length > 0 then
              if s.visited.contains t.key then
                some { s with tasks := s.tasks.set i { t with pc := .unrumor } }
              else
                some { s with visited := t.key :: s.visited,
                              tasks := s.tasks.set i
                                { t with pc := .send (mapAssign results "time" (.num now)) } }
            else
              some { s with tasks := s.tasks.set i { t with pc := .unrumor } }
        | .send results =>
            some { s with out := s.out ++ [(t.key, results)],
                          tasks := s.tasks.set i { t with pc := .unrumor } }
        | .unrumor =>
            some { s with rumored := s.rumored.erase t.key,
                          tasks := s.tasks.set i { t with pc := .release } }
        | .release =>
            some { s with semaphore := s.semaphore - 1,
                          tasks := s.tasks.set i { t with pc := .finish } }
        | .finish =>
            some { s with waitgroup := s.waitgroup - 1,
                          tasks := s.tasks.set i { t with pc := .done } }
        | .done => none

/-- The states a crawl seeded with `seed` can reach, under any scheduling of the
goroutines and any replies of the daemon. -/
inductive Reachable (seed : String) : Crawl → Prop where
  | init : Reachable seed (Crawl.init seed)
  | step (s s1 : Crawl) (i : Nat) (daemon : Daemon) (now : Int) :
      Reachable seed s → step s i daemon now = some s1 → Reachable seed s1

/-- Runs a schedule: the goroutine index of each step. -/
def run (daemon : Daemon) (now : Int) : Crawl → List Nat → Option Crawl
  | s, [] => some s
  | s, i :: rest =>
      match step s i daemon now with
      | none => none
      | some s1 => run daemon now s1 rest

/-- The keys of the records sent so far, in sending order. -/
def Crawl.sentKeys (s : Crawl) : List String :=
  s.out.map Prod.fst

/-- Whether a goroutine holds a record for key `k` that it is about to send. -/
def Task.sending (k : String) (t : Task) : Bool :=
  match t.pc with
  | .send _ => t.key == k
  | _ => false

/-- The number of goroutines about to send a record for key `k`. -/
def pending (k : String) (tasks : List Task) : Nat :=
  tasks.countP (Task.sending k)

/-- The invariant of the crawl: a key is held for sending by at most one
goroutine or has been sent at most once, never both, and then it is visited. -/
def Crawl.Inv (s : Crawl) : Prop :=
  ∀ k, pending k s.tasks + s.sentKeys.count k ≤ 1 ∧
    (0 < pending k s.tasks + s.sentKeys.count k → k ∈ s.visited)

/-! ## Daemons used as concrete inputs -/


/-- A daemon whose `getNodeInfo` reply has no response field and whose
`debug_remoteGetSelf` reply carries coordinates. -/
def daemonNoNodeInfo : Daemon :=
  fun r _ =>
    if r.request == "debug_remoteGetSelf" then
      .obj [("response", .obj [("200::1", .obj [("coords", .arr [.num 1, .num 2])])])]
    else .obj [("status", .str "ok")]

/-- A daemon that answers `debug_remoteGetSelf` with a null response. -/
def daemonNullSelf : Daemon :=
  fun r _ =>
    if r.request == "debug_remoteGetSelf" then .obj [("response", .null)]
    else .obj [("status", .str "ok")]

/-- A daemon that answers `getNodeInfo` with a null response. -/
def daemonNullNodeInfo : Daemon :=
  fun r _ =>
    if r.request == "getNodeInfo" then .obj [("response", .null)]
    else .obj [("status", .str "ok")]

/-- A daemon for a two-node network: every node reports node info and lists
`a` and `b` as peers. -/
def daemonRing : Daemon :=
  fun r _ =>
    if r.request == "getNodeInfo" then
      .obj [("response", .obj [("200::1", .obj [("name", .str "n")])])]
    else if r.request == "debug_remoteGetPeers" then
      .obj [("response", .obj [("200::1", .obj [("keys", .arr [.str "a", .str "b"])])])]
    else .obj [("response", .obj [])]

/-- A daemon that fails twice softly and then answers. -/
def daemonFlaky : Daemon :=
  fun _ idx =>
    match idx with
    | 0 => .obj [("response", .null)]
    | 1 => .obj [("response", .obj [("error", .str "timeout")])]
    | _ => .obj [("response", .obj [("200::1", .obj [("name", .str "n")])])]

/-- A run over `daemonRing` seeded with `a`: the seed goroutine runs to its end,
then the goroutine spawned for `b`, then the one spawned again for `a`. -/
def exampleCrawl : Crawl :=
  (run daemonRing 5 (Crawl.init "a")
    [0, 0, 0, 0, 0, 0, 0, 0, 0, 0, 0, 0, 2, 2, 2, 2, 2, 2, 2, 2, 2, 2, 2, 2, 1, 1, 1, 1, 1]).getD
    (Crawl.init "a")

/-! ## Printer (`doPrinter`, lines 245-267) -/

/-- The text written by `fmt.Printf("\"%s\": %s", result.key, res)` (line 261). -/
def printEntry (key body : String) : String :=
  "\"" ++ key ++ "\": " ++ body

/-- The locals of the printer goroutine: the flag `notFirst` and, as a trace,
the texts written to standard output, one per `fmt` call. -/
structure PrinterState where
  notFirst : Bool
  written : List String

/-- The text of `fmt.Println("{\"yggnodes\": {")` (line 250): the opening line
and its newline. -/
def openingLine : String :=
  "\x7b\"yggnodes\": \x7b\n"

/-- The text of `fmt.Println("\n}}")` (line 264). -/
def closingLine : String :=
  "\n\x7d\x7d\n"

/-- The text of `fmt.Println(",")` (line 259). -/
def commaLine : String :=
  ",\n"

/-- One iteration of `for result := range results` (lines 252-263); `marshal`
is `json.Marshal` on the record. -/
def printerStep (marshal : GoMap → String) (st : PrinterState) (result : String × GoMap) :
    PrinterState :=
  let written := if st.notFirst then st.written ++ [commaLine] else st.written
  { notFirst := true, written := written ++ [printEntry result.1 (marshal result.2)] }

/-- The writes of the printer goroutine (lines 250-264) for the records
received, in arrival order, until the channel is closed. -/
def doPrinter (marshal : GoMap → String) (results : List (String × GoMap)) : List String :=
  let st := results.foldl (printerStep marshal)
    { notFirst := false, written := [openingLine] }
  st.written ++ [closingLine]

/-- The entries the printer writes for a list of records. -/
def entriesOf (marshal : GoMap → String) (results : List (String × GoMap)) : List String :=
  results.map (fun r => printEntry r.1 (marshal r.2))

/-! ### Lemmas on the codec -/

theorem bitAt_le_one (buf : List Nat) (idx : Nat) : bitAt buf idx ≤ 1 := by
  unfold bitAt
  have hk : idx % 8 < 8 := Nat.mod_lt _ (by decide)
  generalize buf.getD (idx / 8) 0 = x
  generalize idx % 8 = k at hk
  have h : ∀ k < 8, (0x80 >>> k) = 2 ^ (7 - k) := by decide
  rw [h k hk, Nat.shiftRight_eq_div_pow]
  have h2 : x &&& 2 ^ (7 - k) ≤ 2 ^ (7 - k) := Nat.and_le_right
  have hpos : 0 < 2 ^ (7 - k) := Nat.two_pow_pos _
  calc (x &&& 2 ^ (7 - k)) / 2 ^ (7 - k) ≤ 2 ^ (7 - k) / 2 ^ (7 - k) := Nat.div_le_div_right h2
    _ = 1 := Nat.div_self hpos

theorem and_shiftRight_two_pow (x k : Nat) : (x &&& 2 ^ k) >>> k = x / 2 ^ k % 2 := by
  apply Nat.eq_of_testBit_eq
  intro j
  rw [Nat.testBit_shiftRight, Nat.testBit_and, Nat.testBit_two_pow]
  have h : (x / 2 ^ k % 2).testBit j = (decide (j < 1) && (x / 2 ^ k).testBit j) := by
    have := Nat.testBit_mod_two_pow (x / 2 ^ k) 1 j
    simpa using this
  rw [h, ← Nat.shiftRight_eq_div_pow, Nat.testBit_shiftRight]
  cases j with
  | zero => simp
  | succ j => simp

/-- The expression of line 50 reads bit `idx % 8`, counted from the most
significant one, of byte `idx / 8`. -/
theorem bitAt_eq (buf : List Nat) (idx : Nat) :
    bitAt buf idx = buf.getD (idx / 8) 0 / 2 ^ (7 - idx % 8) % 2 := by
  unfold bitAt
  have hk : idx % 8 < 8 := Nat.mod_lt _ (by decide)
  have h : ∀ k < 8, (0x80 >>> k) = 2 ^ (7 - k) := by decide
  rw [h _ hk, and_shiftRight_two_pow]

theorem compBit_le_one (key : List Nat) (i : Nat) : compBit key i ≤ 1 :=
  bitAt_le_one _ _

theorem shift_or_bit (y b : Nat) (hb : b ≤ 1) : ((y <<< 1) % 256) ||| b = (2 * y) % 256 + b := by
  have h : ∀ z < 128, ∀ c < 2, (2 * z) ||| c = 2 * z + c := by decide
  have e : (y <<< 1) % 256 = 2 * (y % 128) := by
    rw [Nat.shiftLeft_eq]; omega
  rw [e, h (y % 128) (Nat.mod_lt _ (by decide)) b (by omega)]
  omega

theorem stepBit_done (st : LoopState) (b : Nat) (hd : st.done = true) (hb : b ≤ 1) :
    stepBit st b =
      if st.nBits + 1 = 8 then
        { st with bits := (2 * st.bits) % 256 + b, nBits := 0,
                  temp := st.temp ++ [(2 * st.bits) % 256 + b] }
      else { st with bits := (2 * st.bits) % 256 + b, nBits := st.nBits + 1 } := by
  simp [stepBit, hd, shift_or_bit _ _ hb]

theorem foldl_done (l : List Nat) (st : LoopState) (hd : st.done = true) :
    (l.foldl stepBit st).done = true ∧ (l.foldl stepBit st).ones = st.ones := by
  induction l generalizing st with
  | nil => exact ⟨hd, rfl⟩
  | cons b rest ih =>
    have h1 : (stepBit st b).done = true ∧ (stepBit st b).ones = st.ones := by
      simp only [stepBit, hd]
      simp
      split <;> simp
    have h2 := ih (stepBit st b) h1.1
    exact ⟨h2.1, h2.2.trans h1.2⟩

theorem foldl_short (l : List Nat) (st : LoopState) (hd : st.done = true)
    (hb : ∀ b ∈ l, b ≤ 1) (hlen : st.nBits + l.length < 8) :
    (l.foldl stepBit st).temp = st.temp := by
  induction l generalizing st with
  | nil => rfl
  | cons b rest ih =>
    simp only [List.length_cons] at hlen
    have hb0 : b ≤ 1 := hb b (List.mem_cons_self _ _)
    have hne : ¬ (st.nBits + 1 = 8) := by omega
    have hs := stepBit_done st b hd hb0
    rw [if_neg hne] at hs
    rw [List.foldl_cons, hs]
    exact ih _ hd (fun c hc => hb c (List.mem_cons_of_mem _ hc)) (by show st.nBits + 1 + rest.length < 8; omega)

theorem chunk_cases (l : List Nat) :
    l.length < 8 ∨ ∃ b0 b1 b2 b3 b4 b5 b6 b7 rest,
      l = b0 :: b1 :: b2 :: b3 :: b4 :: b5 :: b6 :: b7 :: rest := by
  rcases l with _ | ⟨b0, _ | ⟨b1, _ | ⟨b2, _ | ⟨b3, _ | ⟨b4, _ | ⟨b5, _ | ⟨b6, _ | ⟨b7, rest⟩⟩⟩⟩⟩⟩⟩⟩
  all_goals first
    | (left; simp; done)
    | (right; exact ⟨_, _, _, _, _, _, _, _, _, rfl⟩)

theorem packBits_short (l : List Nat) (h : l.length < 8) : packBits l = [] := by
  rcases l with _ | ⟨b0, _ | ⟨b1, _ | ⟨b2, _ | ⟨b3, _ | ⟨b4, _ | ⟨b5, _ | ⟨b6, _ | ⟨b7, rest⟩⟩⟩⟩⟩⟩⟩⟩
  all_goals first
    | rfl
    | (simp at h; omega)

theorem foldl_chunk (st : LoopState) (hd : st.done = true) (h0 : st.nBits = 0)
    (b0 b1 b2 b3 b4 b5 b6 b7 : Nat)
    (h : ∀ b ∈ [b0, b1, b2, b3, b4, b5, b6, b7], b ≤ 1) :
    ∃ st2 : LoopState, [b0, b1, b2, b3, b4, b5, b6, b7].foldl stepBit st = st2 ∧
      st2.done = true ∧ st2.nBits = 0 ∧ st2.ones = st.ones ∧
      st2.temp = st.temp ++ [128 * b0 + 64 * b1 + 32 * b2 + 16 * b3 + 8 * b4 + 4 * b5 + 2 * b6 + b7] := by
  simp only [List.mem_cons, List.mem_singleton, List.not_mem_nil, or_false, forall_eq_or_imp,
    forall_eq] at h
  obtain ⟨h0', h1, h2, h3, h4, h5, h6, h7⟩ := h
  refine ⟨_, rfl, ?_⟩
  simp [stepBit, hd, h0, shift_or_bit, h0', h1, h2, h3, h4, h5, h6, h7]
  omega

theorem foldl_packed (n : Nat) : ∀ (l : List Nat) (st : LoopState), l.length ≤ n →
    st.done = true → st.nBits = 0 → (∀ b ∈ l, b ≤ 1) →
    (l.foldl stepBit st).temp = st.temp ++ packBits l := by
  induction n with
  | zero =>
    intro l st hl _ _ _
    have : l = [] := List.length_eq_zero.mp (Nat.le_zero.mp hl)
    subst this
    simp [packBits]
  | succ n ih =>
    intro l st hl hd h0 hb
    rcases chunk_cases l with hshort | ⟨b0, b1, b2, b3, b4, b5, b6, b7, rest, rfl⟩
    · rw [packBits_short l hshort, List.append_nil]
      exact foldl_short l st hd hb (by omega)
    · have hsplit : b0 :: b1 :: b2 :: b3 :: b4 :: b5 :: b6 :: b7 :: rest
          = [b0, b1, b2, b3, b4, b5, b6, b7] ++ rest := rfl
      have hb8 : ∀ b ∈ [b0, b1, b2, b3, b4, b5, b6, b7], b ≤ 1 := by
        intro b hmem
        exact hb b (by rw [hsplit]; exact List.mem_append_left _ hmem)
      have hbr : ∀ b ∈ rest, b ≤ 1 := by
        intro b hmem
        exact hb b (by rw [hsplit]; exact List.mem_append_right _ hmem)
      obtain ⟨st2, hst2, hd2, hn2, _, ht2⟩ := foldl_chunk st hd h0 b0 b1 b2 b3 b4 b5 b6 b7 hb8
      have hlr : rest.length ≤ n := by
        simp only [List.length_cons] at hl
        omega
      rw [hsplit, List.foldl_append, hst2, ih rest st2 hlr hd2 hn2 hbr, ht2]
      simp [packBits]

theorem foldl_scan (l : List Nat) : ∀ (st : LoopState), st.done = false → st.nBits = 0 →
    st.temp = [] → st.ones < 256 → (∀ b ∈ l, b ≤ 1) →
    (l.foldl stepBit st).ones = (st.ones + leadingOnes l) % 256 ∧
      (l.foldl stepBit st).temp = packBits (l.drop (leadingOnes l + 1)) := by
  induction l with
  | nil =>
    intro st _ _ ht ho _
    simp [leadingOnes, packBits, ht, Nat.mod_eq_of_lt ho]
  | cons b rest ih =>
    intro st hd h0 ht ho hb
    have hbr : ∀ c ∈ rest, c ≤ 1 := fun c hc => hb c (List.mem_cons_of_mem _ hc)
    by_cases hz : b = 0
    · subst hz
      have hs : stepBit st 0 = { st with done := true } := by
        simp [stepBit, hd]
      have hdone := foldl_done rest { st with done := true } rfl
      have hpk := foldl_packed rest.length rest { st with done := true } (Nat.le_refl _) rfl h0 hbr
      rw [List.foldl_cons, hs]
      refine ⟨?_, ?_⟩
      · rw [hdone.2]
        simp [leadingOnes, Nat.mod_eq_of_lt ho]
      · rw [hpk]
        simp [leadingOnes, ht]
    · have hs : stepBit st b = { st with ones := (st.ones + 1) % 256 } := by
        simp [stepBit, hd, hz]
      have h := ih { st with ones := (st.ones + 1) % 256 } hd h0 ht
        (Nat.mod_lt _ (by decide)) hbr
      rw [List.foldl_cons, hs]
      refine ⟨?_, ?_⟩
      · rw [h.1]
        simp only [leadingOnes, bne_iff_ne, ne_eq, hz, not_false_eq_true, if_true]
        omega
      · rw [h.2]
        simp [leadingOnes, hz]

theorem bitLoop_eq (key : List Nat) :
    bitLoop (complement key) = (compBits key).foldl stepBit LoopState.init := by
  unfold bitLoop compBits
  rw [List.foldl_map]
  rfl

theorem compBits_le_one (key : List Nat) : ∀ b ∈ compBits key, b ≤ 1 := by
  intro b hb
  unfold compBits at hb
  obtain ⟨i, _, rfl⟩ := List.mem_map.mp hb
  exact compBit_le_one key i

theorem compBits_length (key : List Nat) (hlen : key.length = 32) :
    (compBits key).length = 256 := by
  simp [compBits, complement, hlen]

theorem compBits_getD (key : List Nat) (hlen : key.length = 32) (i : Nat) (hi : i < 256) :
    (compBits key).getD i 0 = compBit key i := by
  have h : i < (compBits key).length := by rw [compBits_length key hlen]; exact hi
  rw [List.getD_eq_getElem _ _ h]
  simp [compBits]

theorem copyInto_length : ∀ (d t : List Nat), (copyInto d t).length = d.length := by
  intro d
  induction d with
  | nil => intro t; rfl
  | cons x xs ih =>
    intro t
    cases t with
    | nil => rfl
    | cons s ss => simp [copyInto, ih ss]

/-- Shape of the address built at lines 66-70. -/
theorem AddrForKey_eq (key : List Nat) (hlen : key.length = 32) :
    AddrForKey key = some (2 :: (bitLoop (complement key)).ones ::
      copyInto (List.replicate 14 0) (bitLoop (complement key)).temp) := by
  simp [AddrForKey, hlen, PublicKeySize, AddressSize, GetPrefix, copyAt, copyInto,
    List.replicate]

/-- The count byte and the body of the address, in terms of the complement bits. -/
theorem bitLoop_spec (key : List Nat) :
    (bitLoop (complement key)).ones = leadingOnes (compBits key) % 256 ∧
    (bitLoop (complement key)).temp
      = packBits ((compBits key).drop (leadingOnes (compBits key) + 1)) := by
  rw [bitLoop_eq]
  have h := foldl_scan (compBits key) LoopState.init rfl rfl rfl (by decide)
    (compBits_le_one key)
  simpa [LoopState.init] using h

theorem leadingOnes_eq (n : Nat) : ∀ (l : List Nat),
    (∀ i, i < n → l.getD i 0 ≠ 0) → l.getD n 0 = 0 → leadingOnes l = n := by
  induction n with
  | zero =>
    intro l _ hz
    cases l with
    | nil => rfl
    | cons b rest =>
      simp only [List.getD_cons_zero] at hz
      simp [leadingOnes, hz]
  | succ n ih =>
    intro l hones hz
    cases l with
    | nil =>
      have := hones 0 (Nat.succ_pos n)
      simp at this
    | cons b rest =>
      have hb : b ≠ 0 := by
        have := hones 0 (Nat.succ_pos n)
        simpa using this
      have hrest : leadingOnes rest = n := by
        apply ih rest
        · intro i hi
          have := hones (i + 1) (Nat.succ_lt_succ hi)
          simpa using this
        · simpa using hz
      simp [leadingOnes, hb, hrest]

/-- The leading-ones count of the complement, from a bitwise description of it. -/
theorem leadingOnes_compBits (key : List Nat) (hlen : key.length = 32) (n : Nat)
    (hn : n ≤ 255) (hones : ∀ i, i < n → compBit key i = 1) (hzero : compBit key n = 0) :
    leadingOnes (compBits key) = n := by
  apply leadingOnes_eq
  · intro i hi
    rw [compBits_getD key hlen i (by omega), hones i hi]
    decide
  · rw [compBits_getD key hlen n (by omega), hzero]

/-- C1: for a 32-byte key whose complement begins with exactly `k` one-bits
(bits `0..k-1` are 1, bit `k` is 0) with `k < 255`, the second byte of the
address returned by `AddrForKey` equals `k`. -/
theorem AddrForKey_count_byte (key : List Nat) (k : Nat) (hlen : key.length = 32)
    (hk : k < 255) (hones : ∀ i, i < k → compBit key i = 1) (hzero : compBit key k = 0) :
    ∃ a, AddrForKey key = some a ∧ a[1]? = some k := by
  refine ⟨_, AddrForKey_eq key hlen, ?_⟩
  have h := leadingOnes_compBits key hlen k (by omega) hones hzero
  simp only [List.getElem?_cons_succ, List.getElem?_cons_zero, (bitLoop_spec key).1, h]
  congr 1
  omega

theorem AddrForKey_count_byte_witness :
    ∃ a, AddrForKey (0 :: List.replicate 31 0x5A) = some a ∧ a[1]? = some 9 :=
  AddrForKey_count_byte (0 :: List.replicate 31 0x5A) 9 (by decide) (by decide)
    (by decide) (by decide)

/-- C4: `AddrForKey` returns no address exactly when the key is not 32 bytes long;
for every 32-byte key, whatever its bits, it returns a 16-byte address whose first
byte is the prefix `0x02`. -/
theorem AddrForKey_total (key : List Nat) :
    (AddrForKey key = none ↔ key.length ≠ 32) ∧
    (key.length = 32 → ∃ a, AddrForKey key = some a ∧ a.length = 16 ∧ a[0]? = some 2) := by
  constructor
  · constructor
    · intro h hlen
      rw [AddrForKey_eq key hlen] at h
      exact Option.noConfusion h
    · intro h
      simp [AddrForKey, PublicKeySize, h]
  · intro hlen
    refine ⟨_, AddrForKey_eq key hlen, ?_, rfl⟩
    simp [copyInto_length]

theorem AddrForKey_total_witness :
    (∃ a, AddrForKey (List.replicate 32 0) = some a ∧ a.length = 16 ∧ a[0]? = some 2) ∧
    (∃ a, AddrForKey (List.replicate 32 255) = some a ∧ a.length = 16 ∧ a[0]? = some 2) ∧
    (∃ a, AddrForKey (0 :: List.replicate 31 0x5A) = some a ∧ a.length = 16 ∧ a[0]? = some 2) ∧
    AddrForKey (List.replicate 31 0) = none :=
  ⟨(AddrForKey_total (List.replicate 32 0)).2 (by decide),
   (AddrForKey_total (List.replicate 32 255)).2 (by decide),
   (AddrForKey_total (0 :: List.replicate 31 0x5A)).2 (by decide),
   (AddrForKey_total (List.replicate 31 0)).1.mpr (by decide)⟩

/-- C5 (as stated) fails: the complement of the all-zero 32-byte key has 256
leading one-bits, and `AddrForKey` returns an address whose count byte is
`256 % 256`. -/
theorem AddrForKey_zero_key_wraps :
    leadingOnes (compBits (List.replicate 32 0)) = 256 ∧
    AddrForKey (List.replicate 32 0)
      = some [2, 256 % 256, 0, 0, 0, 0, 0, 0, 0, 0, 0, 0, 0, 0, 0, 0] := by
  decide

/-- C5 (amended): for every 32-byte key `AddrForKey` returns an address, and its
count byte is the number of leading one-bits of the complement reduced modulo
256 (the 8-bit counter wraps; the all-zero key gets count byte 0). -/
theorem AddrForKey_count_mod (key : List Nat) (hlen : key.length = 32) :
    ∃ a, AddrForKey key = some a ∧ a[1]? = some (leadingOnes (compBits key) % 256) := by
  refine ⟨_, AddrForKey_eq key hlen, ?_⟩
  simp [(bitLoop_spec key).1]

theorem AddrForKey_count_mod_witness :
    ∃ a, AddrForKey (List.replicate 32 0) = some a ∧
      a[1]? = some (leadingOnes (compBits (List.replicate 32 0)) % 256) :=
  AddrForKey_count_mod (List.replicate 32 0) (by decide)

/-! ### Lemmas on Go maps and `doRequest` -/

theorem mapIndex_mapAssign_same (m : GoMap) (k : String) (v : Json) :
    mapIndex (mapAssign m k v) k = some v := by
  induction m with
  | nil => simp [mapAssign, mapIndex, List.lookup]
  | cons e rest ih =>
    obtain ⟨k0, v0⟩ := e
    unfold mapAssign
    by_cases h : k0 = k
    · simp [h, mapIndex, List.lookup]
    · have h2 : (k == k0) = false := by simpa using fun e => h e.symm
      simp only [beq_iff_eq, h, if_false]
      simpa [mapIndex, List.lookup, h2] using ih

theorem mapIndex_mapAssign_ne (m : GoMap) (k k1 : String) (v : Json) (hne : k1 ≠ k) :
    mapIndex (mapAssign m k v) k1 = mapIndex m k1 := by
  induction m with
  | nil =>
    have : (k1 == k) = false := by simpa using hne
    simp [mapAssign, mapIndex, List.lookup, this]
  | cons e rest ih =>
    obtain ⟨k0, v0⟩ := e
    unfold mapAssign
    by_cases h : k0 = k
    · subst h
      have : (k1 == k0) = false := by simpa using hne
      simp [mapIndex, List.lookup, this]
    · simp only [beq_iff_eq, h, if_false]
      by_cases h3 : k1 = k0
      · subst h3
        simp [mapIndex, List.lookup]
      · have : (k1 == k0) = false := by simpa using h3
        simpa [mapIndex, List.lookup, this] using ih

theorem mapAssign_ne_nil (m : GoMap) (k : String) (v : Json) : mapAssign m k v ≠ [] := by
  cases m with
  | nil => simp [mapAssign]
  | cons e rest =>
    obtain ⟨k0, v0⟩ := e
    unfold mapAssign
    split <;> simp

/-- Decoding an object into a map that already holds entries: a field of the
object wins, any other field keeps its old value. -/
theorem mapIndex_foldl (kvs : List (String × Json)) (k : String) : ∀ (res : GoMap),
    mapIndex (kvs.foldl (fun m e => mapAssign m e.1 e.2) res) k =
      match mapIndex (kvs.foldl (fun m e => mapAssign m e.1 e.2) []) k with
      | some v => some v
      | none => mapIndex res k := by
  induction kvs with
  | nil =>
    intro res
    simp [mapIndex, List.lookup]
  | cons e rest ih =>
    intro res
    simp only [List.foldl_cons]
    rw [ih (mapAssign res e.1 e.2), ih (mapAssign [] e.1 e.2)]
    cases hval : mapIndex (List.foldl (fun m e => mapAssign m e.1 e.2) [] rest) k with
    | some v => rfl
    | none =>
      simp only []
      by_cases hk : k = e.1
      · subst hk
        rw [mapIndex_mapAssign_same, mapIndex_mapAssign_same]
      · rw [mapIndex_mapAssign_ne _ _ _ _ hk, mapIndex_mapAssign_ne _ _ _ _ hk]
        simp [mapIndex, List.lookup]

theorem decodeReply_obj (kvs : List (String × Json)) :
    decodeReply (.obj kvs) = kvs.foldl (fun m e => mapAssign m e.1 e.2) [] := rfl

/-- After decoding a reply into the map `res`, the response field is the reply's
own one when the reply carries one or when `res` was empty. -/
theorem response_after_unmarshal (kvs : List (String × Json)) (res : GoMap)
    (h : res = [] ∨ hasResponse (.obj kvs) = true) :
    mapIndex (kvs.foldl (fun m e => mapAssign m e.1 e.2) res) "response"
      = mapIndex (decodeReply (.obj kvs)) "response" := by
  rw [mapIndex_foldl, decodeReply_obj]
  rcases h with h | h
  · subst h
    cases mapIndex (List.foldl (fun m e => mapAssign m e.1 e.2) [] kvs) "response" with
    | some v => rfl
    | none => simp [mapIndex, List.lookup]
  · unfold hasResponse at h
    rw [decodeReply_obj] at h
    cases hv : mapIndex (List.foldl (fun m e => mapAssign m e.1 e.2) [] kvs) "response" with
    | some v => rfl
    | none => rw [hv] at h; exact absurd h (by decide)

theorem doRequestLoop_spec (reply : Nat → Json) : ∀ (fuel idx : Nat) (res : GoMap),
    (∀ i, idx ≤ i → i < idx + fuel → wellFormedReply (reply i)) →
    (∀ i, idx < i → i < idx + fuel → hasResponse (reply i) = true) →
    (res = [] ∨ hasResponse (reply idx) = true) →
    0 < fuel →
    ∃ res1 n, doRequestLoop reply fuel idx res = some (res1, n) ∧ idx < n ∧ n ≤ idx + fuel ∧
      (∀ i, idx ≤ i → i < n →
        (i + 1 < n ↔ (softFailure (decodeReply (reply i)) = true ∧ i + 1 < idx + fuel))) ∧
      mapIndex res1 "response" = mapIndex (decodeReply (reply (n - 1))) "response" := by
  intro fuel
  induction fuel with
  | zero => intro idx res _ _ _ h; exact absurd h (Nat.lt_irrefl 0)
  | succ fuel ih =>
    intro idx res hwf hresp h0 _
    obtain ⟨⟨kvs, hk⟩, hshape⟩ := hwf idx (Nat.le_refl _) (by omega)
    have hfield := response_after_unmarshal kvs res (by rw [← hk]; exact h0)
    rw [← hk] at hfield
    -- what happens when the loop continues after this attempt
    have hcont : softFailure (decodeReply (reply idx)) = true →
        ∃ res1 n, doRequestLoop reply fuel (idx + 1)
            (kvs.foldl (fun m e => mapAssign m e.1 e.2) res) = some (res1, n) ∧
          idx < n ∧ n ≤ idx + (fuel + 1) ∧
          (∀ i, idx ≤ i → i < n →
            (i + 1 < n ↔ (softFailure (decodeReply (reply i)) = true ∧ i + 1 < idx + (fuel + 1)))) ∧
          mapIndex res1 "response" = mapIndex (decodeReply (reply (n - 1))) "response" := by
      intro hs
      cases fuel with
      | zero =>
        refine ⟨_, _, rfl, by omega, by omega, ?_, ?_⟩
        · intro i h1 h2
          constructor
          · intro h; omega
          · intro h; omega
        · simpa using hfield
      | succ fuel =>
        obtain ⟨res1, n, hrun, hlt, hle, hiff, hres⟩ :=
          ih (idx + 1) (kvs.foldl (fun m e => mapAssign m e.1 e.2) res)
            (fun i h1 h2 => hwf i (by omega) (by omega))
            (fun i h1 h2 => hresp i (by omega) (by omega))
            (Or.inr (hresp (idx + 1) (by omega) (by omega))) (by omega)
        refine ⟨res1, n, hrun, by omega, by omega, ?_, hres⟩
        intro i h1 h2
        by_cases hi : i = idx
        · subst hi
          constructor
          · intro _; exact ⟨hs, by omega⟩
          · intro _; omega
        · have := hiff i (by omega) h2
          constructor
          · intro h; exact ⟨(this.mp h).1, by omega⟩
          · intro h; exact this.mpr ⟨h.1, by omega⟩
    -- what happens when the loop breaks after this attempt
    have hbreak : softFailure (decodeReply (reply idx)) = false →
        (∀ i, idx ≤ i → i < idx + 1 →
            (i + 1 < idx + 1 ↔
              (softFailure (decodeReply (reply i)) = true ∧ i + 1 < idx + (fuel + 1)))) := by
      intro hs i h1 h2
      have hi : i = idx := by omega
      subst hi
      constructor
      · intro h; omega
      · intro h; rw [hs] at h; exact absurd h.1 (by decide)
    unfold doRequestLoop
    simp only [hk, unmarshal]
    rcases hshape with hn | hn | ⟨m, hn⟩
    · rw [hn] at hfield
      have hs : softFailure (decodeReply (reply idx)) = false := by simp [softFailure, hn]
      simp only [hfield]
      exact ⟨_, _, rfl, by omega, by omega, hbreak hs, by simpa using hfield.trans hn.symm⟩
    · rw [hn] at hfield
      have hs : softFailure (decodeReply (reply idx)) = true := by simp [softFailure, hn]
      simp only [hfield]
      exact hcont hs
    · rw [hn] at hfield
      simp only [hfield]
      by_cases he : (mapIndex m "error").isSome = true
      · have hs : softFailure (decodeReply (reply idx)) = true := by simp [softFailure, hn, he]
        simp only [he, if_true]
        exact hcont hs
      · have hs : softFailure (decodeReply (reply idx)) = false := by
          simp only [softFailure, hn]
          simpa using he
        simp only [he]
        exact ⟨_, _, rfl, by omega, by omega, hbreak hs, by simpa using hfield.trans hn.symm⟩

/-! ### Claim on `doRequest` -/

/-- C6 (as stated) fails: a first reply without a response field is a soft
failure in the words of the specification, yet `doRequest` stops after that one
attempt and returns it. -/
theorem doRequest_no_retry_without_response :
    softFailureSpec (decodeReply (.obj [("status", .str "ok")])) = true ∧
    doRequest (fun _ _ => .obj [("status", .str "ok")]) (getRequest "k" "getNodeInfo")
      = some ([("status", .str "ok")], 1) := by
  constructor <;> rfl

/-- C6 (amended): for well-formed daemon replies of which every one after the
first carries a response field, `doRequest` makes between 1 and 3 attempts; it
re-dials after an attempt exactly when that attempt's reply has a response field
that is null or a mapping containing an error entry and fewer than 3 attempts
have been made (a first reply without a response field ends the loop); and the
response field of the map it returns is that of the last reply received. -/
theorem doRequest_retry (daemon : Daemon) (request : Request)
    (hwf : ∀ i, i < MAX_RETRY → wellFormedReply (daemon request i))
    (hresp : ∀ i, 0 < i → i < MAX_RETRY → hasResponse (daemon request i) = true) :
    ∃ res n, doRequest daemon request = some (res, n) ∧ 1 ≤ n ∧ n ≤ MAX_RETRY ∧
      (∀ i, i < n →
        (i + 1 < n ↔
          (softFailure (decodeReply (daemon request i)) = true ∧ i + 1 < MAX_RETRY))) ∧
      mapIndex res "response" = mapIndex (decodeReply (daemon request (n - 1))) "response" := by
  obtain ⟨res, n, hrun, hlt, hle, hiff, hres⟩ :=
    doRequestLoop_spec (daemon request) MAX_RETRY 0 []
      (fun i _ h2 => hwf i (by omega))
      (fun i h1 h2 => hresp i h1 (by omega))
      (Or.inl rfl) (by decide)
  refine ⟨res, n, hrun, by omega, by omega, ?_, hres⟩
  intro i hi
  have := hiff i (Nat.zero_le _) hi
  simpa using this

theorem doRequest_retry_witness :
    ∃ res n, doRequest daemonFlaky (getRequest "k" "getNodeInfo") = some (res, n) ∧
      1 ≤ n ∧ n ≤ MAX_RETRY ∧
      (∀ i, i < n →
        (i + 1 < n ↔
          (softFailure (decodeReply (daemonFlaky (getRequest "k" "getNodeInfo") i)) = true
            ∧ i + 1 < MAX_RETRY))) ∧
      mapIndex res "response"
        = mapIndex (decodeReply (daemonFlaky (getRequest "k" "getNodeInfo") (n - 1))) "response" :=
  doRequest_retry daemonFlaky (getRequest "k" "getNodeInfo")
    (fun i hi =>
      match i, hi with
      | 0, _ => ⟨⟨_, rfl⟩, Or.inr (Or.inl rfl)⟩
      | 1, _ => ⟨⟨_, rfl⟩, Or.inr (Or.inr ⟨_, rfl⟩)⟩
      | 2, _ => ⟨⟨_, rfl⟩, Or.inr (Or.inr ⟨_, rfl⟩)⟩
      | n + 3, h => absurd h (by simp [MAX_RETRY]))
    (fun i h0 hi =>
      match i, h0, hi with
      | 0, h, _ => absurd h (by decide)
      | 1, _, _ => rfl
      | 2, _, _ => rfl
      | n + 3, _, h => absurd h (by simp [MAX_RETRY]))
/-! ### Lemmas on the probe -/

theorem nodeInfoEntries_some (kvs : List (String × Json)) : ∀ (results r : GoMap),
    nodeInfoEntries kvs results = some r →
    (∀ e ∈ kvs, ∃ vm, e.2 = .obj vm) ∧ (results ≠ [] → r ≠ []) := by
  induction kvs with
  | nil =>
    intro results r h
    simp only [nodeInfoEntries, Option.some.injEq] at h
    subst h
    exact ⟨fun e he => absurd he (List.not_mem_nil e), id⟩
  | cons e rest ih =>
    intro results r h
    obtain ⟨addr, v⟩ := e
    cases v with
    | obj vm =>
      simp only [nodeInfoEntries] at h
      obtain ⟨h1, h2⟩ := ih _ _ h
      refine ⟨?_, fun _ => h2 (mapAssign_ne_nil _ _ _)⟩
      intro e he
      rcases List.mem_cons.mp he with rfl | he
      · exact ⟨vm, rfl⟩
      · exact h1 e he
    | null => simp [nodeInfoEntries] at h
    | bool b => simp [nodeInfoEntries] at h
    | num n => simp [nodeInfoEntries] at h
    | str s => simp [nodeInfoEntries] at h
    | arr xs => simp [nodeInfoEntries] at h

theorem nodeInfoEntries_none (kvs : List (String × Json)) : ∀ (results : GoMap),
    (∃ e ∈ kvs, ∀ vm, e.2 ≠ .obj vm) → nodeInfoEntries kvs results = none := by
  intro results hbad
  cases h : nodeInfoEntries kvs results with
  | none => rfl
  | some r =>
    obtain ⟨e, he, hne⟩ := hbad
    obtain ⟨vm, hvm⟩ := (nodeInfoEntries_some kvs results r h).1 e he
    exact absurd hvm (hne vm)

theorem selfEntries_some (kvs : List (String × Json)) : ∀ (results r : GoMap),
    selfEntries kvs results = some r →
    (∀ e ∈ kvs, ∃ vm, e.2 = .obj vm) ∧ (results ≠ [] → r ≠ []) := by
  induction kvs with
  | nil =>
    intro results r h
    simp only [selfEntries, Option.some.injEq] at h
    subst h
    exact ⟨fun e he => absurd he (List.not_mem_nil e), id⟩
  | cons e rest ih =>
    intro results r h
    obtain ⟨addr, v⟩ := e
    cases v with
    | obj vm =>
      simp only [selfEntries] at h
      cases hc : mapIndex vm "coords" with
      | some coords =>
        rw [hc] at h
        obtain ⟨h1, h2⟩ := ih _ _ h
        refine ⟨?_, fun _ => h2 (mapAssign_ne_nil _ _ _)⟩
        intro e he
        rcases List.mem_cons.mp he with rfl | he
        · exact ⟨vm, rfl⟩
        · exact h1 e he
      | none =>
        rw [hc] at h
        obtain ⟨h1, h2⟩ := ih _ _ h
        refine ⟨?_, h2⟩
        intro e he
        rcases List.mem_cons.mp he with rfl | he
        · exact ⟨vm, rfl⟩
        · exact h1 e he
    | null => simp [selfEntries] at h
    | bool b => simp [selfEntries] at h
    | num n => simp [selfEntries] at h
    | str s => simp [selfEntries] at h
    | arr xs => simp [selfEntries] at h

theorem keysEntries_next (field : String) (kvs : List (String × Json)) :
    ∀ (results : GoMap) (spawned : List String) (r : GoMap) (sp : List String),
    keysEntries field kvs results spawned = .next r sp →
    (∀ e ∈ kvs, ∃ vm, e.2 = .obj vm) ∧ (results ≠ [] → r ≠ []) ∧
      ((spawned ≠ [] → results ≠ []) → sp ≠ [] → r ≠ []) := by
  induction kvs with
  | nil =>
    intro results spawned r sp h
    simp only [keysEntries, StageEnd.next.injEq] at h
    obtain ⟨rfl, rfl⟩ := h
    exact ⟨fun e he => absurd he (List.not_mem_nil e), id, id⟩
  | cons e rest ih =>
    intro results spawned r sp h
    obtain ⟨addr, v⟩ := e
    have hall : ∀ vm, v = Json.obj vm → (∀ e ∈ rest, ∃ vm, e.2 = Json.obj vm) →
        ∀ e ∈ (addr, v) :: rest, ∃ vm, e.2 = Json.obj vm := by
      intro vm hv h1 e he
      rcases List.mem_cons.mp he with rfl | he
      · exact ⟨vm, hv⟩
      · exact h1 e he
    cases v with
    | obj vm =>
      simp only [keysEntries] at h
      cases hc : mapIndex vm "keys" with
      | none =>
        rw [hc] at h
        obtain ⟨h1, h2, h3⟩ := ih _ _ _ _ h
        exact ⟨hall vm rfl h1, h2, h3⟩
      | some keys =>
        rw [hc] at h
        cases keys with
        | arr ks =>
          simp only [] at h
          cases hs : spawnKeys ks spawned with
          | none => rw [hs] at h; simp at h
          | some spawned1 =>
            rw [hs] at h
            obtain ⟨h1, h2, _⟩ := ih _ _ _ _ h
            exact ⟨hall vm rfl h1, fun _ => h2 (mapAssign_ne_nil _ _ _),
              fun _ _ => h2 (mapAssign_ne_nil _ _ _)⟩
        | null => simp at h
        | bool b => simp at h
        | num n => simp at h
        | str s => simp at h
        | obj o => simp at h
    | null => simp [keysEntries] at h
    | bool b => simp [keysEntries] at h
    | num n => simp [keysEntries] at h
    | str s => simp [keysEntries] at h
    | arr xs => simp [keysEntries] at h

/-- What a reply handled without `return` or panic looks like, and what the
handling does to the record and the spawned keys. -/
theorem stage_next (q : Query) (reply results r : GoMap) (sp : List String)
    (h : stage q reply results = .next r sp) :
    (mapIndex reply "response" = none ∨
      ∃ v, mapIndex reply "response" = some v ∧ mappingOfMappings v) ∧
    (results ≠ [] → r ≠ []) ∧ (sp ≠ [] → r ≠ []) := by
  cases q with
  | nodeInfo =>
    simp only [stage, stageNodeInfo] at h
    cases hr : mapIndex reply "response" with
    | none =>
      rw [hr] at h
      simp only [StageEnd.next.injEq] at h
      obtain ⟨rfl, rfl⟩ := h
      exact ⟨Or.inl rfl, id, fun c => absurd rfl c⟩
    | some v =>
      rw [hr] at h
      cases v with
      | obj kvs =>
        simp only [] at h
        cases he : nodeInfoEntries kvs results with
        | none => rw [he] at h; simp at h
        | some r1 =>
          rw [he] at h
          simp only [StageEnd.next.injEq] at h
          obtain ⟨rfl, rfl⟩ := h
          obtain ⟨h1, h2⟩ := nodeInfoEntries_some kvs results _ he
          exact ⟨Or.inr ⟨_, rfl, kvs, rfl, h1⟩, h2, fun c => absurd rfl c⟩
      | null => simp at h
      | bool b => simp at h
      | num n => simp at h
      | str s => simp at h
      | arr xs => simp at h
  | self =>
    simp only [stage, stageSelf] at h
    cases hr : mapIndex reply "response" with
    | none =>
      rw [hr] at h
      simp only [StageEnd.next.injEq] at h
      obtain ⟨rfl, rfl⟩ := h
      exact ⟨Or.inl rfl, id, fun c => absurd rfl c⟩
    | some v =>
      rw [hr] at h
      cases v with
      | obj kvs =>
        simp only [] at h
        cases he : selfEntries kvs results with
        | none => rw [he] at h; simp at h
        | some r1 =>
          rw [he] at h
          simp only [StageEnd.next.injEq] at h
          obtain ⟨rfl, rfl⟩ := h
          obtain ⟨h1, h2⟩ := selfEntries_some kvs results _ he
          exact ⟨Or.inr ⟨_, rfl, kvs, rfl, h1⟩, h2, fun c => absurd rfl c⟩
      | null => simp at h
      | bool b => simp at h
      | num n => simp at h
      | str s => simp at h
      | arr xs => simp at h
  | peers =>
    simp only [stage, stageKeys] at h
    cases hr : mapIndex reply "response" with
    | none =>
      rw [hr] at h
      simp only [StageEnd.next.injEq] at h
      obtain ⟨rfl, rfl⟩ := h
      exact ⟨Or.inl rfl, id, fun c => absurd rfl c⟩
    | some v =>
      rw [hr] at h
      cases v with
      | obj kvs =>
        simp only [] at h
        obtain ⟨h1, h2, h3⟩ := keysEntries_next _ kvs _ _ _ _ h
        exact ⟨Or.inr ⟨_, rfl, kvs, rfl, h1⟩, h2, h3 (fun c => absurd rfl c)⟩
      | null => simp at h
      | bool b => simp at h
      | num n => simp at h
      | str s => simp at h
      | arr xs => simp at h
  | dht =>
    simp only [stage, stageKeys] at h
    cases hr : mapIndex reply "response" with
    | none =>
      rw [hr] at h
      simp only [StageEnd.next.injEq] at h
      obtain ⟨rfl, rfl⟩ := h
      exact ⟨Or.inl rfl, id, fun c => absurd rfl c⟩
    | some v =>
      rw [hr] at h
      cases v with
      | obj kvs =>
        simp only [] at h
        obtain ⟨h1, h2, h3⟩ := keysEntries_next _ kvs _ _ _ _ h
        exact ⟨Or.inr ⟨_, rfl, kvs, rfl, h1⟩, h2, h3 (fun c => absurd rfl c)⟩
      | null => simp at h
      | bool b => simp at h
      | num n => simp at h
      | str s => simp at h
      | arr xs => simp at h

theorem runQueries_emitted (daemon : Daemon) (key : String) (known : Bool) (now : Int)
    (qs : List Query) : ∀ (results : GoMap) (spawned : List String) (k : String) (res : GoMap)
      (sp : List String),
    runQueries daemon key known now qs results spawned = .emitted k res sp →
    ∀ q ∈ qs, ∃ reply n, doRequest daemon (getRequest key q.name) = some (reply, n) ∧
      (mapIndex reply "response" = none ∨
        ∃ v, mapIndex reply "response" = some v ∧ mappingOfMappings v) := by
  induction qs with
  | nil =>
    intro _ _ _ _ _ _ q hq
    exact absurd hq (List.not_mem_nil q)
  | cons q0 rest ih =>
    intro results spawned k res sp h q hq
    simp only [runQueries] at h
    cases hd : doRequest daemon (getRequest key q0.name) with
    | none => rw [hd] at h; simp at h
    | some pr =>
      obtain ⟨reply, n⟩ := pr
      rw [hd] at h
      simp only [] at h
      cases hs : stage q0 reply results with
      | panic => rw [hs] at h; simp at h
      | abort sp0 => rw [hs] at h; simp at h
      | next r sp0 =>
        rw [hs] at h
        simp only [] at h
        rcases List.mem_cons.mp hq with rfl | hq
        · exact ⟨reply, n, hd, (stage_next _ _ _ _ _ hs).1⟩
        · exact ih _ _ _ _ _ h q hq

/-- C7 (as stated) fails: with a `getNodeInfo` reply whose response payload is
missing the probe still sends a record (built from the other replies); and with
a `debug_remoteGetSelf` reply whose response payload is null the probe panics. -/
theorem probe_missing_or_null_payload :
    (∃ reply n, doRequest daemonNoNodeInfo (getRequest "k" Query.nodeInfo.name) = some (reply, n) ∧
      mapIndex reply "response" = none) ∧
    probe daemonNoNodeInfo "k" false 7
      = .emitted "k" [("coords", .arr [.num 1, .num 2]), ("time", .num 7)] [] ∧
    (∃ reply n, doRequest daemonNullSelf (getRequest "k" Query.self.name) = some (reply, n) ∧
      mapIndex reply "response" = some .null) ∧
    probe daemonNullSelf "k" false 7 = .panicked :=
  ⟨⟨_, _, rfl, rfl⟩, rfl, ⟨_, _, rfl, rfl⟩, rfl⟩

/-- C7 (amended): if the `getNodeInfo` reply finally obtained has a null response
payload, or a mapping with an entry that is not a mapping, the probe ends
normally without sending a record and without spawning; and a probe sends a
record only if each of the four replies finally obtained has a response payload
that is missing or a mapping whose entries are all mappings. -/
theorem probe_malformed_reply (daemon : Daemon) (key : String) (known : Bool) (now : Int) :
    (∀ reply n, doRequest daemon (getRequest key Query.nodeInfo.name) = some (reply, n) →
      (mapIndex reply "response" = some .null ∨
        ∃ kvs, mapIndex reply "response" = some (.obj kvs) ∧ ∃ e ∈ kvs, ∀ vm, e.2 ≠ .obj vm) →
      probe daemon key known now = .aborted []) ∧
    (∀ k res sp, probe daemon key known now = .emitted k res sp →
      ∀ q : Query, ∃ reply n, doRequest daemon (getRequest key q.name) = some (reply, n) ∧
        (mapIndex reply "response" = none ∨
          ∃ v, mapIndex reply "response" = some v ∧ mappingOfMappings v)) := by
  constructor
  · intro reply n hd hbad
    simp only [probe, runQueries, hd, stage, stageNodeInfo]
    rcases hbad with hnull | ⟨kvs, hk, hbad⟩
    · simp [hnull]
    · simp [hk, nodeInfoEntries_none kvs [] hbad]
  · intro k res sp h q
    apply runQueries_emitted daemon key known now _ _ _ _ _ _ h
    cases q <;> simp

theorem probe_malformed_reply_witness :
    probe daemonNullNodeInfo "k" false 7 = .aborted [] ∧
    ∀ q : Query, ∃ reply n, doRequest daemonNoNodeInfo (getRequest "k" q.name) = some (reply, n) ∧
      (mapIndex reply "response" = none ∨
        ∃ v, mapIndex reply "response" = some v ∧ mappingOfMappings v) :=
  ⟨(probe_malformed_reply daemonNullNodeInfo "k" false 7).1 _ _ rfl (Or.inl rfl),
   (probe_malformed_reply daemonNoNodeInfo "k" false 7).2 _ _ _ rfl⟩

theorem countP_set (p : Task → Bool) (tasks : List Task) : ∀ (i : Nat) (t t1 : Task),
    tasks[i]? = some t →
    (tasks.set i t1).countP p + (if p t then 1 else 0)
      = tasks.countP p + (if p t1 then 1 else 0) := by
  induction tasks with
  | nil => intro i t t1 h; simp at h
  | cons a rest ih =>
    intro i t t1 h
    cases i with
    | zero =>
      simp only [List.getElem?_cons_zero, Option.some.injEq] at h
      subst h
      simp only [List.set_cons_zero, List.countP_cons]
      omega
    | succ i =>
      simp only [List.getElem?_cons_succ] at h
      have := ih i t t1 h
      simp only [List.set_cons_succ, List.countP_cons]
      omega

theorem pending_spawnTasks (k : String) (keys : List String) :
    pending k (spawnTasks keys) = 0 := by
  unfold pending spawnTasks
  rw [List.countP_eq_zero]
  intro t ht
  obtain ⟨key, _, rfl⟩ := List.mem_map.mp ht
  simp [Task.sending]

theorem pending_set (k : String) (tasks : List Task) (i : Nat) (t t1 : Task)
    (extra : List String) (h : tasks[i]? = some t) :
    pending k (tasks.set i t1 ++ spawnTasks extra) + (if t.sending k then 1 else 0)
      = pending k tasks + (if t1.sending k then 1 else 0) := by
  have h1 := countP_set (Task.sending k) tasks i t t1 h
  have h2 := pending_spawnTasks k extra
  unfold pending at h2 ⊢
  rw [List.countP_append, h2]
  omega

theorem pending_set_plain (k : String) (tasks : List Task) (i : Nat) (t t1 : Task)
    (h : tasks[i]? = some t) :
    pending k (tasks.set i t1) + (if t.sending k then 1 else 0)
      = pending k tasks + (if t1.sending k then 1 else 0) := by
  have := pending_set k tasks i t t1 [] h
  simpa [spawnTasks] using this

/-- A step that sends nothing, keeps the visited keys and changes no goroutine
into or out of the sending position keeps the invariant. -/
theorem inv_of_quiet (s s1 : Crawl) (hinv : s.Inv) (hout : s1.out = s.out)
    (hvis : ∀ k, k ∈ s.visited → k ∈ s1.visited)
    (hp : ∀ k, pending k s1.tasks = pending k s.tasks) : s1.Inv := by
  intro k
  have h := hinv k
  have hs : s1.sentKeys = s.sentKeys := by simp [Crawl.sentKeys, hout]
  rw [hp k, hs]
  exact ⟨h.1, fun hpos => hvis k (h.2 hpos)⟩

theorem init_inv (seed : String) : (Crawl.init seed).Inv := by
  intro k
  simp [Crawl.init, pending, Crawl.sentKeys, Task.sending]

theorem sending_false (k : String) (t : Task) (h : ∀ r, t.pc ≠ .send r) :
    t.sending k = false := by
  unfold Task.sending
  split
  · rename_i r hr
    exact absurd hr (h r)
  · rfl

theorem quiet_set (k : String) (tasks : List Task) (i : Nat) (t : Task) (pc : Pc)
    (extra : List String) (ht : tasks[i]? = some t)
    (hold : ∀ r, t.pc ≠ .send r) (hnew : ∀ r, pc ≠ .send r) :
    pending k (tasks.set i { key := t.key, pc := pc } ++ spawnTasks extra) = pending k tasks := by
  have h := pending_set k tasks i t { key := t.key, pc := pc } extra ht
  rw [sending_false k t hold, sending_false k _ (by simpa using hnew)] at h
  simpa using h

theorem quiet_set_plain (k : String) (tasks : List Task) (i : Nat) (t : Task) (pc : Pc)
    (ht : tasks[i]? = some t)
    (hold : ∀ r, t.pc ≠ .send r) (hnew : ∀ r, pc ≠ .send r) :
    pending k (tasks.set i { key := t.key, pc := pc }) = pending k tasks := by
  have h := quiet_set k tasks i t pc [] ht hold hnew
  simpa [spawnTasks] using h

theorem nextPc_ne_send (q : Query) (results r : GoMap) : nextPc q results ≠ .send r := by
  cases q <;> simp [nextPc]

theorem step_inv (s s1 : Crawl) (i : Nat) (daemon : Daemon) (now : Int)
    (hstep : step s i daemon now = some s1) (hinv : s.Inv) : s1.Inv := by
  unfold step at hstep
  split at hstep
  · exact absurd hstep (by simp)
  split at hstep
  · exact absurd hstep (by simp)
  rename_i t ht
  split at hstep
  · -- acquire
    rename_i hpc
    split at hstep
    · simp only [Option.some.injEq] at hstep
      subst hstep
      exact inv_of_quiet s _ hinv rfl (fun k hk => hk)
        (fun k => quiet_set_plain k s.tasks i t _ ht (by simp [hpc]) (by simp))
    · exact absurd hstep (by simp)
  · -- claim
    rename_i hpc
    split at hstep
    all_goals
      simp only [Option.some.injEq] at hstep
      subst hstep
      exact inv_of_quiet s _ hinv rfl (fun k hk => hk)
        (fun k => quiet_set_plain k s.tasks i t _ ht (by simp [hpc]) (by simp))
  · -- check
    rename_i hpc
    split at hstep
    all_goals
      simp only [Option.some.injEq] at hstep
      subst hstep
      exact inv_of_quiet s _ hinv rfl (fun k hk => hk)
        (fun k => quiet_set_plain k s.tasks i t _ ht (by simp [hpc]) (by simp))
  · -- query
    rename_i q results hpc
    split at hstep
    · simp only [Option.some.injEq] at hstep
      subst hstep
      exact inv_of_quiet s _ hinv rfl (fun k hk => hk) (fun k => rfl)
    · split at hstep
      · simp only [Option.some.injEq] at hstep
        subst hstep
        exact inv_of_quiet s _ hinv rfl (fun k hk => hk) (fun k => rfl)
      · simp only [Option.some.injEq] at hstep
        subst hstep
        exact inv_of_quiet s _ hinv rfl (fun k hk => hk)
          (fun k => quiet_set k s.tasks i t _ _ ht (by simp [hpc]) (by simp))
      · simp only [Option.some.injEq] at hstep
        subst hstep
        exact inv_of_quiet s _ hinv rfl (fun k hk => hk)
          (fun k => quiet_set k s.tasks i t _ _ ht (by simp [hpc])
            (fun r => nextPc_ne_send _ _ r))
  · -- insert
    rename_i results hpc
    split at hstep
    · split at hstep
      · simp only [Option.some.injEq] at hstep
        subst hstep
        exact inv_of_quiet s _ hinv rfl (fun k hk => hk)
          (fun k => quiet_set_plain k s.tasks i t _ ht (by simp [hpc]) (by simp))
      · rename_i hnotin
        simp only [Option.some.injEq] at hstep
        subst hstep
        have hfresh : t.key ∉ s.visited := by simpa using hnotin
        intro k
        have hk := hinv k
        have hp := pending_set_plain k s.tasks i t
          { key := t.key, pc := .send (mapAssign results "time" (.num now)) } ht
        rw [sending_false k t (by simp [hpc])] at hp
        simp only [Task.sending] at hp
        simp only [Crawl.sentKeys] at hk ⊢
        by_cases hkey : t.key = k
        · subst hkey
          have hzero : pending t.key s.tasks + List.count t.key (List.map Prod.fst s.out) = 0 := by
            by_contra hne
            exact hfresh (hk.2 (Nat.pos_of_ne_zero hne))
          simp only [beq_self_eq_true, if_true] at hp
          refine ⟨by omega, fun _ => List.mem_cons_self _ _⟩
        · have hb : (t.key == k) = false := by simpa using hkey
          simp only [hb] at hp
          refine ⟨by simp at hp; omega, fun hpos => List.mem_cons_of_mem _ (hk.2 (by simp at hp; omega))⟩
    · simp only [Option.some.injEq] at hstep
      subst hstep
      exact inv_of_quiet s _ hinv rfl (fun k hk => hk)
        (fun k => quiet_set_plain k s.tasks i t _ ht (by simp [hpc]) (by simp))
  · -- send
    rename_i results hpc
    simp only [Option.some.injEq] at hstep
    subst hstep
    intro k
    have hk := hinv k
    have hp := pending_set_plain k s.tasks i t { key := t.key, pc := .unrumor } ht
    rw [sending_false k { key := t.key, pc := .unrumor } (by simp)] at hp
    simp only [Task.sending, hpc] at hp
    simp only [Crawl.sentKeys, List.map_append, List.map_cons, List.map_nil,
      List.count_append] at hk ⊢
    by_cases hkey : t.key = k
    · subst hkey
      simp only [beq_self_eq_true, if_true, Bool.false_eq_true, if_false, Nat.add_zero] at hp
      simp only [List.count_cons_self, List.count_nil]
      exact ⟨by omega, fun _ => hk.2 (by omega)⟩
    · have hb : (t.key == k) = false := by simpa using hkey
      simp only [hb] at hp
      have hc : List.count k [t.key] = 0 := by
        simp [List.count_cons, hb]
      rw [hc]
      exact ⟨by simp at hp; omega, fun hpos => hk.2 (by simp at hp; omega)⟩
  · -- unrumor
    rename_i hpc
    simp only [Option.some.injEq] at hstep
    subst hstep
    exact inv_of_quiet s _ hinv rfl (fun k hk => hk)
      (fun k => quiet_set_plain k s.tasks i t _ ht (by simp [hpc]) (by simp))
  · -- release
    rename_i hpc
    simp only [Option.some.injEq] at hstep
    subst hstep
    exact inv_of_quiet s _ hinv rfl (fun k hk => hk)
      (fun k => quiet_set_plain k s.tasks i t _ ht (by simp [hpc]) (by simp))
  · -- finish
    rename_i hpc
    simp only [Option.some.injEq] at hstep
    subst hstep
    exact inv_of_quiet s _ hinv rfl (fun k hk => hk)
      (fun k => quiet_set_plain k s.tasks i t _ ht (by simp [hpc]) (by simp))
  · -- done
    exact absurd hstep (by simp)

theorem reachable_inv (seed : String) (s : Crawl) (h : Reachable seed s) : s.Inv := by
  induction h with
  | init => exact init_inv seed
  | step s0 s1 i daemon now _ hstep ih => exact step_inv s0 s1 i daemon now hstep ih

theorem run_reachable (seed : String) (daemon : Daemon) (now : Int) (sched : List Nat) :
    ∀ (s : Crawl), Reachable seed s →
      Reachable seed ((run daemon now s sched).getD (Crawl.init seed)) := by
  induction sched with
  | nil => intro s h; exact h
  | cons i rest ih =>
    intro s h
    simp only [run]
    cases hs : step s i daemon now with
    | none => exact Reachable.init
    | some s1 => exact ih s1 (Reachable.step s s1 i daemon now h hs)

/-! ### Claim on the crawl -/

/-- C8: in every reachable state of the crawl, under any interleaving of the
`doRumor` goroutines and any replies of the daemon, the records sent to the
output channel contain no key twice, and every key sent is in the visited set. -/
theorem crawl_emits_each_key_once (seed : String) (s : Crawl) (h : Reachable seed s) :
    s.sentKeys.Nodup ∧ ∀ k ∈ s.sentKeys, k ∈ s.visited := by
  have hinv := reachable_inv seed s h
  constructor
  · rw [List.nodup_iff_count_le_one]
    intro k
    have := (hinv k).1
    omega
  · intro k hk
    apply (hinv k).2
    have : 0 < s.sentKeys.count k := List.count_pos_iff.mpr hk
    omega

theorem crawl_emits_each_key_once_witness :
    exampleCrawl.sentKeys = ["a", "b"] ∧
    exampleCrawl.sentKeys.Nodup ∧ ∀ k ∈ exampleCrawl.sentKeys, k ∈ exampleCrawl.visited :=
  ⟨by decide,
   crawl_emits_each_key_once "a" exampleCrawl
     (run_reachable "a" daemonRing 5 _ (Crawl.init "a") Reachable.init)⟩
/-! ### Printer -/

theorem intersperse_cons_eq (sep : String) (l : List String) : ∀ (a : String),
    (a :: l).intersperse sep = a :: l.flatMap (fun e => [sep, e]) := by
  induction l with
  | nil => intro a; rfl
  | cons b rest ih =>
    intro a
    rw [List.intersperse_cons₂, ih b]
    simp [List.flatMap]

theorem printer_foldl (marshal : GoMap → String) (results : List (String × GoMap)) :
    ∀ (st : PrinterState),
    (results.foldl (printerStep marshal) st).written =
      st.written ++
        (if st.notFirst then (entriesOf marshal results).flatMap (fun e => [commaLine, e])
         else (entriesOf marshal results).intersperse commaLine) := by
  induction results with
  | nil =>
    intro st
    cases st.notFirst <;> simp [entriesOf]
  | cons r rest ih =>
    intro st
    rw [List.foldl_cons, ih]
    have he : entriesOf marshal (r :: rest)
        = printEntry r.1 (marshal r.2) :: entriesOf marshal rest := rfl
    cases hf : st.notFirst
    · rw [he, intersperse_cons_eq]
      simp [printerStep, hf]
    · rw [he]
      simp [printerStep, hf, List.flatMap]

theorem printEntry_ne_comma (key body : String) : printEntry key body ≠ commaLine := by
  intro h
  unfold commaLine at h
  have hd := congrArg String.data h
  simp only [printEntry, String.data_append] at hd
  simp only [List.cons_append, List.nil_append, List.cons.injEq] at hd
  exact absurd hd.1 (by decide)

theorem count_comma_flatMap (l : List String) (h : ∀ e ∈ l, e ≠ commaLine) :
    (l.flatMap (fun e => [commaLine, e])).count commaLine = l.length := by
  induction l with
  | nil => rfl
  | cons a rest ih =>
    have ha : a ≠ commaLine := h a (List.mem_cons_self _ _)
    have hr := ih (fun e he => h e (List.mem_cons_of_mem _ he))
    simp only [List.flatMap_cons, List.cons_append, List.nil_append, List.count_cons_self,
      List.count_cons_of_ne ha.symm, hr, List.length_cons]

theorem count_comma_intersperse (l : List String) (h : ∀ e ∈ l, e ≠ commaLine) :
    (l.intersperse commaLine).count commaLine = l.length - 1 := by
  cases l with
  | nil => rfl
  | cons a rest =>
    have ha : a ≠ commaLine := h a (List.mem_cons_self _ _)
    rw [intersperse_cons_eq, List.count_cons_of_ne ha.symm,
      count_comma_flatMap rest (fun e he => h e (List.mem_cons_of_mem _ he))]
    simp

theorem intercalate_go_data (sep : String) (l : List String) : ∀ (acc : String),
    (String.intercalate.go acc sep l).data
      = acc.data ++ ((l.flatMap (fun e => [sep, e])).map String.data).flatten := by
  induction l with
  | nil => intro acc; simp [String.intercalate.go]
  | cons a rest ih =>
    intro acc
    simp [String.intercalate.go, ih, String.data_append]

theorem intercalate_data (sep : String) (l : List String) :
    (String.intercalate sep l).data = ((l.intersperse sep).map String.data).flatten := by
  cases l with
  | nil => rfl
  | cons a rest =>
    rw [intersperse_cons_eq]
    simp [String.intercalate, intercalate_go_data]

/-- C9: for every finite list of records received, in arrival order, the
printer writes the opening line `{"yggnodes": {`, then the entries
`"<key>": <body>` with one comma line between each two consecutive entries and
none before the first or after the last, then the closing `}}`; it writes
exactly `N - 1` separators for `N` records (none for `N = 0` and `N = 1`). The
text is spelled out for zero, one and two records. -/
theorem doPrinter_output (marshal : GoMap → String) (results : List (String × GoMap)) :
    doPrinter marshal results
      = ["\x7b\"yggnodes\": \x7b\n"]
          ++ (results.map (fun r => "\"" ++ r.1 ++ "\": " ++ marshal r.2)).intersperse ",\n"
          ++ ["\n\x7d\x7d\n"] ∧
    (doPrinter marshal results).count ",\n" = results.length - 1 ∧
    String.join (doPrinter marshal results)
      = "\x7b\"yggnodes\": \x7b\n"
          ++ String.intercalate ",\n"
              (results.map (fun r => "\"" ++ r.1 ++ "\": " ++ marshal r.2))
          ++ "\n\x7d\x7d\n" ∧
    String.join (doPrinter marshal []) = "\x7b\"yggnodes\": \x7b\n\n\x7d\x7d\n" ∧
    (∀ k1 b1, String.join (doPrinter marshal [(k1, b1)])
      = "\x7b\"yggnodes\": \x7b\n\"" ++ k1 ++ "\": " ++ marshal b1 ++ "\n\x7d\x7d\n") ∧
    (∀ k1 b1 k2 b2, String.join (doPrinter marshal [(k1, b1), (k2, b2)])
      = "\x7b\"yggnodes\": \x7b\n\"" ++ k1 ++ "\": " ++ marshal b1 ++ ",\n\""
          ++ k2 ++ "\": " ++ marshal b2 ++ "\n\x7d\x7d\n") := by
  have hw : doPrinter marshal results
      = [openingLine] ++ (entriesOf marshal results).intersperse commaLine ++ [closingLine] := by
    simp [doPrinter, printer_foldl]
  have hc : (doPrinter marshal results).count commaLine = results.length - 1 := by
    rw [hw, List.count_append, List.count_append, count_comma_intersperse]
    · have h1 : List.count commaLine [openingLine] = 0 := by decide
      have h2 : List.count commaLine [closingLine] = 0 := by decide
      rw [h1, h2]
      simp [entriesOf]
    · intro e he
      unfold entriesOf at he
      obtain ⟨r, _, rfl⟩ := List.mem_map.mp he
      exact printEntry_ne_comma _ _
  have ht : String.join (doPrinter marshal results)
      = openingLine ++ String.intercalate commaLine (entriesOf marshal results)
          ++ closingLine := by
    rw [hw]
    apply String.ext
    simp [String.data_join, String.data_append, intercalate_data]
  refine ⟨hw, hc, ht, ?_, ?_, ?_⟩
  · rfl
  · intro k1 b1
    apply String.ext
    simp [doPrinter, printerStep, printEntry, openingLine, closingLine, String.data_join,
      String.data_append]
  · intro k1 b1 k2 b2
    apply String.ext
    simp [doPrinter, printerStep, printEntry, openingLine, closingLine, commaLine,
      String.data_join, String.data_append]
end Crawler
